import Mathlib

/-!
Shallow embedding of `examples/pipeline_wavernn/loss_mol.py` (the
mixture-of-logistics loss `LossFn_Mol` and its helper `log_sum_exp`) and of
the mode dispatch in `examples/pipeline_wavernn/wavernn.py`
(`train_one_epoch` / `evaluate`), together with theorems settling the
specification claims about them.

Tensors of shape `[B, T, C]` are modelled as functions
`Fin B → Fin T → Fin C → ℝ`; float arithmetic is modelled by exact real
arithmetic.  Partial numeric operations (`log` of a non-positive number,
division by zero, reductions over an empty axis) are tracked by a second,
`Option`-valued copy of the pipeline used for the finiteness claim.
-/

namespace MolLoss

/-- Logistic sigmoid, `torch.sigmoid`. -/
noncomputable def sigmoid (x : ℝ) : ℝ := 1 / (1 + Real.exp (-x))

/-- `F.softplus`, mathematically `log(1 + exp x)`. -/
noncomputable def softplus (x : ℝ) : ℝ := Real.log (1 + Real.exp x)

/-- `torch.max` along a length-`K` axis (per row); the source calls it on a
non-empty axis, the `K = 0` branch is junk. -/
noncomputable def vmax {K : ℕ} (x : Fin K → ℝ) : ℝ :=
  if h : 0 < K then
    haveI : Nonempty (Fin K) := Fin.pos_iff_nonempty.mp h
    Finset.univ.sup' Finset.univ_nonempty x
  else 0

/-- `log_sum_exp` from `loss_mol.py`: the numerically stable
`m + log (Σ exp (x i - m))` with `m` the per-row maximum (per row of the
last axis). -/
noncomputable def log_sum_exp {K : ℕ} (x : Fin K → ℝ) : ℝ :=
  vmax x + Real.log (∑ i, Real.exp (x i - vmax x))

/-- The naive (non-stable) reference `log (Σ exp (x i))`. -/
noncomputable def log_sum_exp_naive {K : ℕ} (x : Fin K → ℝ) : ℝ :=
  Real.log (∑ i, Real.exp (x i))

/-- `F.log_softmax` along the last axis: `x i - log_sum_exp x` (this is the
stable form torch computes). -/
noncomputable def log_softmax {K : ℕ} (x : Fin K → ℝ) (i : Fin K) : ℝ :=
  x i - log_sum_exp x

/-! ### The `LossFn_Mol` pipeline, elementwise over `[B, T, K]`.

`y_hat : Fin B → Fin T → Fin (3*K) → ℝ` carries the three `K`-wide slices
(`logit_probs`, `means`, `log_scales`); `y` is the scalar target per
`(batch, time)` position (the source expands `y` of shape `[B, T, 1]`
across the mixture axis).  `num_classes` is the integer argument. -/

/-- `min_value = float(np.log(1e-14))`, the default `log_scale_min`. -/
noncomputable def min_value : ℝ := -32.23619130191664

/-- `tmp = 10.397192449493701  # = np.log((num_classes - 1) / 2)`: a literal
in the source, independent of the `num_classes` argument. -/
noncomputable def tmp : ℝ := 10.397192449493701

variable {B T K : ℕ}

/-- Index of slice 0 (`logit_probs`) in the packed last axis. -/
def idx0 {K : ℕ} (i : Fin K) : Fin (3 * K) := ⟨i.val, by omega⟩

/-- Index of slice 1 (`means`) in the packed last axis. -/
def idx1 {K : ℕ} (i : Fin K) : Fin (3 * K) := ⟨K + i.val, by omega⟩

/-- Index of slice 2 (`log_scales`) in the packed last axis. -/
def idx2 {K : ℕ} (i : Fin K) : Fin (3 * K) := ⟨2 * K + i.val, by omega⟩

/-- `logit_probs = y_hat[:, :, :nr_mix]`. -/
def logit_probs (y_hat : Fin B → Fin T → Fin (3 * K) → ℝ)
    (b : Fin B) (t : Fin T) (i : Fin K) : ℝ := y_hat b t (idx0 i)

/-- `means = y_hat[:, :, nr_mix:2 * nr_mix]`. -/
def means (y_hat : Fin B → Fin T → Fin (3 * K) → ℝ)
    (b : Fin B) (t : Fin T) (i : Fin K) : ℝ := y_hat b t (idx1 i)

/-- `log_scales = torch.clamp(y_hat[:, :, 2 * nr_mix:3 * nr_mix], min=log_scale_min)`. -/
def log_scales (log_scale_min : ℝ) (y_hat : Fin B → Fin T → Fin (3 * K) → ℝ)
    (b : Fin B) (t : Fin T) (i : Fin K) : ℝ := max (y_hat b t (idx2 i)) log_scale_min

/-- `centered_y = y - means` (after `y = y.expand_as(means)`). -/
def centered_y (y_hat : Fin B → Fin T → Fin (3 * K) → ℝ) (y : Fin B → Fin T → ℝ)
    (b : Fin B) (t : Fin T) (i : Fin K) : ℝ := y b t - means y_hat b t i

/-- `inv_stdv = torch.exp(-log_scales)`. -/
noncomputable def inv_stdv (log_scale_min : ℝ) (y_hat : Fin B → Fin T → Fin (3 * K) → ℝ)
    (b : Fin B) (t : Fin T) (i : Fin K) : ℝ :=
  Real.exp (-(log_scales log_scale_min y_hat b t i))

/-- `plus_in = inv_stdv * (centered_y + 1. / (num_classes - 1))`. -/
noncomputable def plus_in (num_classes : ℤ) (log_scale_min : ℝ)
    (y_hat : Fin B → Fin T → Fin (3 * K) → ℝ) (y : Fin B → Fin T → ℝ)
    (b : Fin B) (t : Fin T) (i : Fin K) : ℝ :=
  inv_stdv log_scale_min y_hat b t i *
    (centered_y y_hat y b t i + 1 / ((num_classes : ℝ) - 1))

/-- `cdf_plus = torch.sigmoid(plus_in)`. -/
noncomputable def cdf_plus (num_classes : ℤ) (log_scale_min : ℝ)
    (y_hat : Fin B → Fin T → Fin (3 * K) → ℝ) (y : Fin B → Fin T → ℝ)
    (b : Fin B) (t : Fin T) (i : Fin K) : ℝ :=
  sigmoid (plus_in num_classes log_scale_min y_hat y b t i)

/-- `min_in = inv_stdv * (centered_y - 1. / (num_classes - 1))`. -/
noncomputable def min_in (num_classes : ℤ) (log_scale_min : ℝ)
    (y_hat : Fin B → Fin T → Fin (3 * K) → ℝ) (y : Fin B → Fin T → ℝ)
    (b : Fin B) (t : Fin T) (i : Fin K) : ℝ :=
  inv_stdv log_scale_min y_hat b t i *
    (centered_y y_hat y b t i - 1 / ((num_classes : ℝ) - 1))

/-- `cdf_min = torch.sigmoid(min_in)`. -/
noncomputable def cdf_min (num_classes : ℤ) (log_scale_min : ℝ)
    (y_hat : Fin B → Fin T → Fin (3 * K) → ℝ) (y : Fin B → Fin T → ℝ)
    (b : Fin B) (t : Fin T) (i : Fin K) : ℝ :=
  sigmoid (min_in num_classes log_scale_min y_hat y b t i)

/-- `log_cdf_plus = plus_in - F.softplus(plus_in)`. -/
noncomputable def log_cdf_plus (num_classes : ℤ) (log_scale_min : ℝ)
    (y_hat : Fin B → Fin T → Fin (3 * K) → ℝ) (y : Fin B → Fin T → ℝ)
    (b : Fin B) (t : Fin T) (i : Fin K) : ℝ :=
  plus_in num_classes log_scale_min y_hat y b t i -
    softplus (plus_in num_classes log_scale_min y_hat y b t i)

/-- `log_one_minus_cdf_min = -F.softplus(min_in)`. -/
noncomputable def log_one_minus_cdf_min (num_classes : ℤ) (log_scale_min : ℝ)
    (y_hat : Fin B → Fin T → Fin (3 * K) → ℝ) (y : Fin B → Fin T → ℝ)
    (b : Fin B) (t : Fin T) (i : Fin K) : ℝ :=
  -softplus (min_in num_classes log_scale_min y_hat y b t i)

/-- `cdf_delta = cdf_plus - cdf_min`. -/
noncomputable def cdf_delta (num_classes : ℤ) (log_scale_min : ℝ)
    (y_hat : Fin B → Fin T → Fin (3 * K) → ℝ) (y : Fin B → Fin T → ℝ)
    (b : Fin B) (t : Fin T) (i : Fin K) : ℝ :=
  cdf_plus num_classes log_scale_min y_hat y b t i -
    cdf_min num_classes log_scale_min y_hat y b t i

/-- `mid_in = inv_stdv * centered_y`. -/
noncomputable def mid_in (log_scale_min : ℝ)
    (y_hat : Fin B → Fin T → Fin (3 * K) → ℝ) (y : Fin B → Fin T → ℝ)
    (b : Fin B) (t : Fin T) (i : Fin K) : ℝ :=
  inv_stdv log_scale_min y_hat b t i * centered_y y_hat y b t i

/-- `log_pdf_mid = mid_in - log_scales - 2. * F.softplus(mid_in)`. -/
noncomputable def log_pdf_mid (log_scale_min : ℝ)
    (y_hat : Fin B → Fin T → Fin (3 * K) → ℝ) (y : Fin B → Fin T → ℝ)
    (b : Fin B) (t : Fin T) (i : Fin K) : ℝ :=
  mid_in log_scale_min y_hat y b t i - log_scales log_scale_min y_hat b t i -
    2 * softplus (mid_in log_scale_min y_hat y b t i)

/-- `inner_inner_cond = (cdf_delta > 1e-5).float()`. -/
noncomputable def inner_inner_cond (num_classes : ℤ) (log_scale_min : ℝ)
    (y_hat : Fin B → Fin T → Fin (3 * K) → ℝ) (y : Fin B → Fin T → ℝ)
    (b : Fin B) (t : Fin T) (i : Fin K) : ℝ :=
  if cdf_delta num_classes log_scale_min y_hat y b t i > 1e-5 then 1 else 0

/-- `inner_inner_out = inner_inner_cond * torch.log(torch.clamp(cdf_delta, min=1e-12))
+ (1. - inner_inner_cond) * (log_pdf_mid - tmp)`. -/
noncomputable def inner_inner_out (num_classes : ℤ) (log_scale_min : ℝ)
    (y_hat : Fin B → Fin T → Fin (3 * K) → ℝ) (y : Fin B → Fin T → ℝ)
    (b : Fin B) (t : Fin T) (i : Fin K) : ℝ :=
  inner_inner_cond num_classes log_scale_min y_hat y b t i *
      Real.log (max (cdf_delta num_classes log_scale_min y_hat y b t i) 1e-12) +
    (1 - inner_inner_cond num_classes log_scale_min y_hat y b t i) *
      (log_pdf_mid log_scale_min y_hat y b t i - tmp)

/-- `inner_cond = (y > 0.999).float()`. -/
noncomputable def inner_cond (y : Fin B → Fin T → ℝ) (b : Fin B) (t : Fin T) : ℝ :=
  if y b t > 0.999 then 1 else 0

/-- `inner_out = inner_cond * log_one_minus_cdf_min + (1. - inner_cond) * inner_inner_out`. -/
noncomputable def inner_out (num_classes : ℤ) (log_scale_min : ℝ)
    (y_hat : Fin B → Fin T → Fin (3 * K) → ℝ) (y : Fin B → Fin T → ℝ)
    (b : Fin B) (t : Fin T) (i : Fin K) : ℝ :=
  inner_cond y b t * log_one_minus_cdf_min num_classes log_scale_min y_hat y b t i +
    (1 - inner_cond y b t) * inner_inner_out num_classes log_scale_min y_hat y b t i

/-- `cond = (y < -0.999).float()`. -/
noncomputable def cond (y : Fin B → Fin T → ℝ) (b : Fin B) (t : Fin T) : ℝ :=
  if y b t < -0.999 then 1 else 0

/-- `log_probs = cond * log_cdf_plus + (1. - cond) * inner_out`: the
per-element log-probability before the mixture log-weights are added. -/
noncomputable def log_probs_pre (num_classes : ℤ) (log_scale_min : ℝ)
    (y_hat : Fin B → Fin T → Fin (3 * K) → ℝ) (y : Fin B → Fin T → ℝ)
    (b : Fin B) (t : Fin T) (i : Fin K) : ℝ :=
  cond y b t * log_cdf_plus num_classes log_scale_min y_hat y b t i +
    (1 - cond y b t) * inner_out num_classes log_scale_min y_hat y b t i

/-- `log_probs = log_probs + F.log_softmax(logit_probs, -1)`. -/
noncomputable def log_probs (num_classes : ℤ) (log_scale_min : ℝ)
    (y_hat : Fin B → Fin T → Fin (3 * K) → ℝ) (y : Fin B → Fin T → ℝ)
    (b : Fin B) (t : Fin T) (i : Fin K) : ℝ :=
  log_probs_pre num_classes log_scale_min y_hat y b t i +
    log_softmax (logit_probs y_hat b t) i

/-- `torch.mean` of a `[B, T]` tensor. -/
noncomputable def mean2 {B T : ℕ} (f : Fin B → Fin T → ℝ) : ℝ :=
  (∑ b, ∑ t, f b t) / ((B : ℝ) * (T : ℝ))

/-- `reduce=True` branch: `-torch.mean(log_sum_exp(log_probs))`. -/
noncomputable def lossReduced (num_classes : ℤ) (log_scale_min : ℝ)
    (y_hat : Fin B → Fin T → Fin (3 * K) → ℝ) (y : Fin B → Fin T → ℝ) : ℝ :=
  -mean2 (fun b t => log_sum_exp (log_probs num_classes log_scale_min y_hat y b t))

/-- `reduce=False` branch: `-log_sum_exp(log_probs).unsqueeze(-1)`, of shape
`[B, T, 1]`. -/
noncomputable def lossUnreduced (num_classes : ℤ) (log_scale_min : ℝ)
    (y_hat : Fin B → Fin T → Fin (3 * K) → ℝ) (y : Fin B → Fin T → ℝ)
    (b : Fin B) (t : Fin T) : Fin 1 → ℝ :=
  fun _ => -log_sum_exp (log_probs num_classes log_scale_min y_hat y b t)

/-! ### Domain tracking for the partial numeric operations.

Float non-finiteness (`NaN`/`Inf`) in this pipeline can only be introduced
by a partial operation leaving its domain: `log` of a non-positive number,
division by zero, or a reduction over an empty axis.  `WellDefined` records
every such domain condition in the order the source performs the
operations; the `Checked` variants of the two outputs return `none` unless
all of them hold. -/

/-- Every partial numeric operation performed by the `LossFn_Mol` pipeline
is applied inside its domain: the half-bin-width division
`1. / (num_classes - 1)` has a nonzero denominator; the `log` hidden in each
`F.softplus` call (on `plus_in`, `min_in` and `mid_in`) has a strictly
positive argument; `torch.log(torch.clamp(cdf_delta, min=1e-12))` has a
strictly positive argument; and the two `log_sum_exp` reductions
(inside `F.log_softmax` and the final mixture reduction) act on a non-empty
axis with a strictly positive sum of exponentials. -/
def WellDefined {B T K : ℕ} (num_classes : ℤ) (log_scale_min : ℝ)
    (y_hat : Fin B → Fin T → Fin (3 * K) → ℝ) (y : Fin B → Fin T → ℝ) : Prop :=
  (num_classes : ℝ) - 1 ≠ 0 ∧
  (∀ b t i, 0 < 1 + Real.exp (plus_in num_classes log_scale_min y_hat y b t i)) ∧
  (∀ b t i, 0 < 1 + Real.exp (min_in num_classes log_scale_min y_hat y b t i)) ∧
  (∀ b t i, 0 < 1 + Real.exp (mid_in log_scale_min y_hat y b t i)) ∧
  (∀ b t i, 0 < max (cdf_delta num_classes log_scale_min y_hat y b t i) 1e-12) ∧
  0 < K ∧
  (∀ b t, 0 < ∑ i, Real.exp (logit_probs y_hat b t i - vmax (logit_probs y_hat b t))) ∧
  (∀ b t, 0 < ∑ i,
    Real.exp (log_probs num_classes log_scale_min y_hat y b t i -
      vmax (log_probs num_classes log_scale_min y_hat y b t)))

open Classical in
/-- The `reduce=True` output, returning `none` when any partial numeric
operation leaves its domain (including `torch.mean` over an empty tensor). -/
noncomputable def lossReducedChecked {B T K : ℕ} (num_classes : ℤ) (log_scale_min : ℝ)
    (y_hat : Fin B → Fin T → Fin (3 * K) → ℝ) (y : Fin B → Fin T → ℝ) : Option ℝ :=
  if WellDefined num_classes log_scale_min y_hat y ∧ (0 : ℝ) < (B : ℝ) * (T : ℝ) then
    some (lossReduced num_classes log_scale_min y_hat y)
  else none

open Classical in
/-- The `reduce=False` output, returning `none` when any partial numeric
operation leaves its domain. -/
noncomputable def lossUnreducedChecked {B T K : ℕ} (num_classes : ℤ) (log_scale_min : ℝ)
    (y_hat : Fin B → Fin T → Fin (3 * K) → ℝ) (y : Fin B → Fin T → ℝ) :
    Option (Fin B → Fin T → Fin 1 → ℝ) :=
  if WellDefined num_classes log_scale_min y_hat y then
    some (lossUnreduced num_classes log_scale_min y_hat y)
  else none

/-! ### Shape-checked entry point and the surrounding mode dispatch. -/

/-- A tensor of unknown rank: a shape together with entries indexed by a
multi-index (entries outside the shape are irrelevant junk). -/
structure NDTensor where
  shape : List ℕ
  entry : List ℕ → ℝ

/-- The result of `LossFn_Mol`: a scalar (`reduce=True`) or a tensor
(`reduce=False`). -/
inductive MolOutput where
  | scalar : ℝ → MolOutput
  | tensor : NDTensor → MolOutput

/-- The `[nB, nT, 1]` tensor produced by the `reduce=False` branch
(`-log_sum_exp(log_probs).unsqueeze(-1)`). -/
noncomputable def unreducedNDT {nB nT K : ℕ} (num_classes : ℤ) (lsm : ℝ)
    (yh : Fin nB → Fin nT → Fin (3 * K) → ℝ) (yt : Fin nB → Fin nT → ℝ) : NDTensor :=
  { shape := [nB, nT, 1]
    entry := fun l =>
      match l with
      | [b, t, _] =>
        if hb : b < nB then
          if ht : t < nT then
            lossUnreduced num_classes lsm yh yt ⟨b, hb⟩ ⟨t, ht⟩ ⟨0, Nat.one_pos⟩
          else 0
        else 0
      | _ => 0 }

/-- `LossFn_Mol(y_hat, y, num_classes, log_scale_min, reduce)` with its two
`assert` statements (`y_hat.dim() == 3`, `y_hat.size(-1) % 3 == 0`) modelled
as early errors; on valid shapes it runs the elementwise pipeline. `y` is
the already-expanded target (`y.expand_as(means)` reads one scalar per
`(batch, time)` position). -/
noncomputable def LossFn_Mol (y_hat : NDTensor) (y : ℕ → ℕ → ℝ)
    (num_classes : ℤ) (log_scale_min : Option ℝ) (reduce : Bool) :
    Except String MolOutput :=
  let lsm := log_scale_min.getD min_value
  match y_hat.shape with
  | [nB, nT, nC] =>
    if nC % 3 = 0 then
      let nr_mix := nC / 3
      let yh : Fin nB → Fin nT → Fin (3 * nr_mix) → ℝ :=
        fun b t i => y_hat.entry [b.val, t.val, i.val]
      let yt : Fin nB → Fin nT → ℝ := fun b t => y b.val t.val
      if reduce then
        .ok (.scalar (lossReduced num_classes lsm yh yt))
      else
        .ok (.tensor (unreducedNDT num_classes lsm yh yt))
    else .error "assert failed: y_hat.size(-1) % 3 == 0"
  | _ => .error "assert failed: y_hat.dim() == 3"

/-- `y_hat.transpose(1, 2)` (as used on rank-3 tensors in the training loop). -/
def NDTensor.transpose12 (x : NDTensor) : NDTensor :=
  { shape :=
      match x.shape with
      | a :: b :: c :: rest => a :: c :: b :: rest
      | s => s
    entry := fun l =>
      x.entry (match l with
        | a :: b :: c :: rest => a :: c :: b :: rest
        | s => s) }

/-- `y.unsqueeze(-1)`. -/
def NDTensor.unsqueezeLast (x : NDTensor) : NDTensor :=
  { shape := x.shape ++ [1]
    entry := fun l => x.entry l.dropLast }

/-- The per-batch mode dispatch of `train_one_epoch` in `wavernn.py`
(lines 256-263): adjust `y_hat`/`y` by `model.mode`, raising
`ValueError('This input mode is not valid.')` for unrecognized modes. -/
def train_mode_step (mode : String) (y_hat y : NDTensor) :
    Except String (NDTensor × NDTensor) :=
  if mode = "RAW" then .ok (y_hat.transpose12, y)
  else if mode = "MOL" then .ok (y_hat, y.unsqueezeLast)
  else .error "This input mode is not valid."

/-- The identical per-batch mode dispatch of `evaluate` in `wavernn.py`
(lines 306-313). -/
def evaluate_mode_step (mode : String) (y_hat y : NDTensor) :
    Except String (NDTensor × NDTensor) :=
  if mode = "RAW" then .ok (y_hat.transpose12, y)
  else if mode = "MOL" then .ok (y_hat, y.unsqueezeLast)
  else .error "This input mode is not valid."

/-- Concrete `y_hat` for K = 1 (logit 0, mean 0, raw log-scale 30) used to
exercise the degenerate-bin fallback branch. -/
noncomputable def cexYhat : Fin 1 → Fin 1 → Fin (3 * 1) → ℝ :=
  fun _ _ i => if i.val = 2 then 30 else 0

/-- Concrete zero target. -/
noncomputable def cexY : Fin 1 → Fin 1 → ℝ := fun _ _ => 0

/-- Concrete all-zero `y_hat` for K = 1. -/
noncomputable def zeroYhat : Fin 1 → Fin 1 → Fin (3 * 1) → ℝ := fun _ _ _ => 0

/-- Concrete K = 1 `y_hat` with logit 5, mean 0, raw log-scale 0. -/
noncomputable def wYhatA : Fin 1 → Fin 1 → Fin (3 * 1) → ℝ :=
  fun _ _ i => if i.val = 0 then 5 else 0

/-- Concrete K = 1 `y_hat` with logit 7, mean 0, raw log-scale 0. -/
noncomputable def wYhatB : Fin 1 → Fin 1 → Fin (3 * 1) → ℝ :=
  fun _ _ i => if i.val = 0 then 7 else 0

/-- `y_hat` with the per-row constant `c` added to the `logit_probs` slice
(indices below `nr_mix`) and the other slices untouched. -/
noncomputable def shiftLogits {B T K : ℕ} (c : ℝ)
    (y_hat : Fin B → Fin T → Fin (3 * K) → ℝ) :
    Fin B → Fin T → Fin (3 * K) → ℝ :=
  fun b t i => if i.val < K then y_hat b t i + c else y_hat b t i

/-! ## Lemmas -/

lemma sum_exp_pos {K : ℕ} (hK : 0 < K) (f : Fin K → ℝ) :
    0 < ∑ i, Real.exp (f i) := by
  haveI : Nonempty (Fin K) := Fin.pos_iff_nonempty.mp hK
  exact Finset.sum_pos (fun i _ => Real.exp_pos _) Finset.univ_nonempty

/-- The stable log-sum-exp agrees with the naive one (exact arithmetic). -/
lemma log_sum_exp_eq_naive {K : ℕ} (hK : 0 < K) (x : Fin K → ℝ) :
    log_sum_exp x = log_sum_exp_naive x := by
  have hS : 0 < ∑ i, Real.exp (x i) := sum_exp_pos hK x
  have hsum : ∑ i, Real.exp (x i - vmax x)
      = (∑ i, Real.exp (x i)) / Real.exp (vmax x) := by
    rw [Finset.sum_div]
    exact Finset.sum_congr rfl fun i _ => by rw [Real.exp_sub]
  rw [log_sum_exp, log_sum_exp_naive, hsum,
    Real.log_div (ne_of_gt hS) (Real.exp_ne_zero _), Real.log_exp]
  ring

/-- Shifting every coordinate by `c` shifts `log_sum_exp` by `c`. -/
lemma log_sum_exp_shift {K : ℕ} (hK : 0 < K) (x : Fin K → ℝ) (c : ℝ) :
    log_sum_exp (fun i => x i + c) = log_sum_exp x + c := by
  rw [log_sum_exp_eq_naive hK, log_sum_exp_eq_naive hK]
  have hS : 0 < ∑ i, Real.exp (x i) := sum_exp_pos hK x
  have hsum : ∑ i, Real.exp (x i + c)
      = (∑ i, Real.exp (x i)) * Real.exp c := by
    rw [Finset.sum_mul]
    exact Finset.sum_congr rfl fun i _ => by rw [Real.exp_add]
  rw [log_sum_exp_naive, log_sum_exp_naive, hsum,
    Real.log_mul (ne_of_gt hS) (Real.exp_ne_zero _), Real.log_exp]

/-- For a single component the log-sum-exp is the value itself. -/
lemma log_sum_exp_single (x : Fin 1 → ℝ) : log_sum_exp x = x 0 := by
  rw [log_sum_exp_eq_naive Nat.one_pos, log_sum_exp_naive,
    Fin.sum_univ_one, Real.log_exp]

/-- For a single component `log_softmax` is identically zero. -/
lemma log_softmax_single (x : Fin 1 → ℝ) (i : Fin 1) : log_softmax x i = 0 := by
  rw [log_softmax, log_sum_exp_single, Fin.eq_zero i, sub_self]

/-- `log_softmax` is invariant under adding a constant to every logit. -/
lemma log_softmax_shift {K : ℕ} (hK : 0 < K) (v : Fin K → ℝ) (c : ℝ) (i : Fin K) :
    log_softmax (fun j => v j + c) i = log_softmax v i := by
  rw [log_softmax, log_softmax, log_sum_exp_shift hK]
  ring

/-- All domain conditions hold for every input with at least one mixture
component and `num_classes ≠ 1`. -/
lemma wellDefined_holds {B T K : ℕ} (num_classes : ℤ) (log_scale_min : ℝ)
    (y_hat : Fin B → Fin T → Fin (3 * K) → ℝ) (y : Fin B → Fin T → ℝ)
    (hK : 0 < K) (hnc : num_classes ≠ 1) :
    WellDefined num_classes log_scale_min y_hat y := by
  refine ⟨?_, ?_, ?_, ?_, ?_, hK, ?_, ?_⟩
  · intro h
    apply hnc
    have h1 : ((num_classes : ℝ)) = ((1 : ℤ) : ℝ) := by push_cast; linarith
    exact_mod_cast h1
  · intro b t i; positivity
  · intro b t i; positivity
  · intro b t i; positivity
  · intro b t i
    exact lt_of_lt_of_le (by norm_num) (le_max_right _ _)
  · intro b t; exact sum_exp_pos hK _
  · intro b t; exact sum_exp_pos hK _

lemma sigmoid_neg (s : ℝ) : sigmoid (-s) = 1 - sigmoid s := by
  unfold sigmoid
  rw [neg_neg, Real.exp_neg]
  have h0 : Real.exp s ≠ 0 := Real.exp_ne_zero s
  have h1 : 1 + Real.exp s ≠ 0 := by positivity
  have h2 : 1 + (Real.exp s)⁻¹ ≠ 0 := by positivity
  field_simp
  ring

/-- The symmetric sigmoid difference is bounded by its argument (a
mean-value-style bound used to force the fallback branch). -/
lemma sigmoid_sub_sigmoid_neg_le (s : ℝ) (hs : 0 ≤ s) :
    sigmoid s - sigmoid (-s) ≤ s := by
  rw [sigmoid_neg]
  have hE : (0 : ℝ) < 1 + Real.exp (-s) := by positivity
  have h1 : Real.exp (-s) ≤ 1 := Real.exp_le_one_iff.mpr (by linarith)
  have h2 : 1 - s ≤ Real.exp (-s) := by
    have := Real.add_one_le_exp (-s)
    linarith
  have hform : sigmoid s - (1 - sigmoid s)
      = (1 - Real.exp (-s)) / (1 + Real.exp (-s)) := by
    unfold sigmoid
    field_simp
  rw [hform]
  have hle : (1 - Real.exp (-s)) / (1 + Real.exp (-s)) ≤ 1 - Real.exp (-s) :=
    div_le_self (by linarith) (by nlinarith [Real.exp_pos (-s)])
  linarith

/-- When the mask `cdf_delta > 1e-5` is false, the blended interior value
reduces to `log_pdf_mid - tmp`, with `tmp` the literal from the source. -/
lemma inner_inner_out_else {B T K : ℕ} (num_classes : ℤ) (log_scale_min : ℝ)
    (y_hat : Fin B → Fin T → Fin (3 * K) → ℝ) (y : Fin B → Fin T → ℝ)
    (b : Fin B) (t : Fin T) (i : Fin K)
    (h : ¬ cdf_delta num_classes log_scale_min y_hat y b t i > 1e-5) :
    inner_inner_out num_classes log_scale_min y_hat y b t i =
      log_pdf_mid log_scale_min y_hat y b t i - tmp := by
  rw [inner_inner_out, inner_inner_cond, if_neg h]
  ring

/-- When the mask `cdf_delta > 1e-5` is true, the blended interior value
reduces to `log(clamp(cdf_delta, min=1e-12))`. -/
lemma inner_inner_out_main {B T K : ℕ} (num_classes : ℤ) (log_scale_min : ℝ)
    (y_hat : Fin B → Fin T → Fin (3 * K) → ℝ) (y : Fin B → Fin T → ℝ)
    (b : Fin B) (t : Fin T) (i : Fin K)
    (h : cdf_delta num_classes log_scale_min y_hat y b t i > 1e-5) :
    inner_inner_out num_classes log_scale_min y_hat y b t i =
      Real.log (max (cdf_delta num_classes log_scale_min y_hat y b t i) 1e-12) := by
  rw [inner_inner_out, inner_inner_cond, if_pos h]
  ring

/-- At a saturated high target (`y > 0.999` and not `y < -0.999`) the
pre-mixture log-probability is exactly the `log_one_minus_cdf_min` branch. -/
lemma log_probs_pre_high {B T K : ℕ} (num_classes : ℤ) (log_scale_min : ℝ)
    (y_hat : Fin B → Fin T → Fin (3 * K) → ℝ) (y : Fin B → Fin T → ℝ)
    (b : Fin B) (t : Fin T) (i : Fin K)
    (hhi : y b t > 0.999) (hlo : ¬ y b t < -0.999) :
    log_probs_pre num_classes log_scale_min y_hat y b t i =
      log_one_minus_cdf_min num_classes log_scale_min y_hat y b t i := by
  rw [log_probs_pre, inner_out, cond, inner_cond, if_neg hlo, if_pos hhi]
  ring

/-- At a saturated low target (`y < -0.999`) the pre-mixture
log-probability is exactly the `log_cdf_plus` branch. -/
lemma log_probs_pre_low {B T K : ℕ} (num_classes : ℤ) (log_scale_min : ℝ)
    (y_hat : Fin B → Fin T → Fin (3 * K) → ℝ) (y : Fin B → Fin T → ℝ)
    (b : Fin B) (t : Fin T) (i : Fin K)
    (hlo : y b t < -0.999) :
    log_probs_pre num_classes log_scale_min y_hat y b t i =
      log_cdf_plus num_classes log_scale_min y_hat y b t i := by
  rw [log_probs_pre, cond, if_pos hlo]
  ring

/-- An interior target (`-0.999 ≤ y ≤ 0.999`) selects the interior blend. -/
lemma log_probs_pre_interior {B T K : ℕ} (num_classes : ℤ) (log_scale_min : ℝ)
    (y_hat : Fin B → Fin T → Fin (3 * K) → ℝ) (y : Fin B → Fin T → ℝ)
    (b : Fin B) (t : Fin T) (i : Fin K)
    (hhi : ¬ y b t > 0.999) (hlo : ¬ y b t < -0.999) :
    log_probs_pre num_classes log_scale_min y_hat y b t i =
      inner_inner_out num_classes log_scale_min y_hat y b t i := by
  rw [log_probs_pre, inner_out, cond, inner_cond, if_neg hlo, if_neg hhi]
  ring

/-- The pre-mixture log-probability depends on `y_hat` only through the
`means` and `log_scales` slices. -/
lemma log_probs_pre_congr {B T K : ℕ} (num_classes : ℤ) (log_scale_min : ℝ)
    (y_hat1 y_hat2 : Fin B → Fin T → Fin (3 * K) → ℝ) (y : Fin B → Fin T → ℝ)
    (b : Fin B) (t : Fin T) (i : Fin K)
    (hm : means y_hat1 b t i = means y_hat2 b t i)
    (hs : log_scales log_scale_min y_hat1 b t i = log_scales log_scale_min y_hat2 b t i) :
    log_probs_pre num_classes log_scale_min y_hat1 y b t i =
      log_probs_pre num_classes log_scale_min y_hat2 y b t i := by
  unfold log_probs_pre inner_out inner_inner_out inner_inner_cond cond inner_cond
    log_cdf_plus log_one_minus_cdf_min cdf_delta cdf_plus cdf_min log_pdf_mid mid_in
    plus_in min_in inv_stdv centered_y
  rw [hm, hs]

lemma cex_means : means cexYhat 0 0 0 = 0 := by
  rw [means]
  norm_num [cexYhat, idx1]

lemma cex_log_scales : log_scales min_value cexYhat 0 0 0 = 30 := by
  rw [log_scales]
  have h2 : cexYhat 0 0 (idx2 0) = 30 := by norm_num [cexYhat, idx2]
  rw [h2, max_eq_left (by norm_num [min_value])]

lemma cex_plus_in :
    plus_in 3 min_value cexYhat cexY 0 0 0 = Real.exp (-30) / 2 := by
  rw [plus_in, inv_stdv, centered_y, cex_log_scales, cex_means]
  norm_num [cexY]
  ring

lemma cex_min_in :
    min_in 3 min_value cexYhat cexY 0 0 0 = -(Real.exp (-30) / 2) := by
  rw [min_in, inv_stdv, centered_y, cex_log_scales, cex_means]
  norm_num [cexY]
  ring

lemma exp_neg_30_lt : Real.exp (-30) < 2e-5 := by
  have h4 : (4 : ℝ) ≤ Real.exp 3 := by
    have := Real.add_one_le_exp (3 : ℝ)
    linarith
  have h30 : Real.exp 30 = Real.exp 3 ^ (10 : ℕ) := by
    rw [← Real.exp_nat_mul]
    norm_num
  have hgt : (50000 : ℝ) < Real.exp 30 := by
    rw [h30]
    calc (50000 : ℝ) < 4 ^ (10 : ℕ) := by norm_num
    _ ≤ Real.exp 3 ^ (10 : ℕ) := pow_le_pow_left₀ (by norm_num) h4 10
  have hpos : (0 : ℝ) < Real.exp 30 := Real.exp_pos _
  rw [Real.exp_neg]
  rw [inv_lt_comm₀ hpos (by norm_num)]
  norm_num
  linarith

/-- At the concrete fallback input the CDF difference is below the `1e-5`
threshold, so the degenerate-bin branch is selected. -/
lemma cex_cdf_delta_le : cdf_delta 3 min_value cexYhat cexY 0 0 0 ≤ 1e-5 := by
  have hs : (0 : ℝ) ≤ Real.exp (-30) / 2 := by positivity
  have hb := sigmoid_sub_sigmoid_neg_le (Real.exp (-30) / 2) hs
  have hδ : cdf_delta 3 min_value cexYhat cexY 0 0 0
      = sigmoid (Real.exp (-30) / 2) - sigmoid (-(Real.exp (-30) / 2)) := by
    rw [cdf_delta, cdf_plus, cdf_min, cex_plus_in, cex_min_in]
  rw [hδ]
  have := exp_neg_30_lt
  linarith

/-! ## Claim theorems -/

/-- C1 counterexample: the claim that the degenerate-bin fallback equals
`log_pdf_mid - log((num_classes-1)/2)` for every value of `num_classes`
fails at `num_classes = 3`: there `log((num_classes-1)/2) = log 1 = 0`, but
the code subtracts the fixed literal `10.397192449493701`.  At the concrete
input below the target is interior, the mask `cdf_delta > 1e-5` is false,
and the per-element log-probability used (before the mixture log-weights)
differs from the claimed value. -/
theorem C1_fallback_counterexample :
    ¬ cdf_delta 3 min_value cexYhat cexY 0 0 0 > 1e-5 ∧
    log_probs_pre 3 min_value cexYhat cexY 0 0 0 ≠
      log_pdf_mid min_value cexYhat cexY 0 0 0 - Real.log ((((3 : ℤ) : ℝ) - 1) / 2) := by
  have hc : ¬ cdf_delta 3 min_value cexYhat cexY 0 0 0 > 1e-5 :=
    not_lt.mpr cex_cdf_delta_le
  refine ⟨hc, ?_⟩
  rw [log_probs_pre_interior 3 min_value cexYhat cexY 0 0 0
      (by norm_num [cexY]) (by norm_num [cexY]),
    inner_inner_out_else 3 min_value cexYhat cexY 0 0 0 hc]
  have h1 : ((((3 : ℤ) : ℝ) - 1) / 2) = 1 := by norm_num
  rw [h1, Real.log_one]
  intro hEq
  have htmp : tmp = 0 := by linarith
  norm_num [tmp] at htmp

/-- C1 (amended): in `LossFn_Mol`, whenever the masked condition
`cdf_delta > 1e-5` is false at an element whose target is interior (not
saturated, so the interior blend is the value used), the per-element
log-probability used for that element (before adding the mixture
log-weights) equals `log_pdf_mid - tmp` where `tmp` is the fixed literal
`10.397192449493701` (the precomputed `log((65536-1)/2)`), independent of
the `num_classes` argument. -/
theorem C1_fallback_is_literal {B T K : ℕ} (num_classes : ℤ) (log_scale_min : ℝ)
    (y_hat : Fin B → Fin T → Fin (3 * K) → ℝ) (y : Fin B → Fin T → ℝ)
    (b : Fin B) (t : Fin T) (i : Fin K)
    (hhi : ¬ y b t > 0.999) (hlo : ¬ y b t < -0.999)
    (h : ¬ cdf_delta num_classes log_scale_min y_hat y b t i > 1e-5) :
    log_probs_pre num_classes log_scale_min y_hat y b t i =
      log_pdf_mid log_scale_min y_hat y b t i - tmp := by
  rw [log_probs_pre_interior num_classes log_scale_min y_hat y b t i hhi hlo,
    inner_inner_out_else num_classes log_scale_min y_hat y b t i h]

/-- Witness for C1: the amended statement instantiated at the concrete
fallback input. -/
theorem C1_fallback_is_literal_witness :
    ¬ cexY 0 0 > 0.999 ∧ ¬ cexY 0 0 < -0.999 ∧
    ¬ cdf_delta 3 min_value cexYhat cexY 0 0 0 > 1e-5 ∧
    log_probs_pre 3 min_value cexYhat cexY 0 0 0 =
      log_pdf_mid min_value cexYhat cexY 0 0 0 - tmp :=
  ⟨by norm_num [cexY], by norm_num [cexY], not_lt.mpr cex_cdf_delta_le,
    C1_fallback_is_literal 3 min_value cexYhat cexY 0 0 0
      (by norm_num [cexY]) (by norm_num [cexY]) (not_lt.mpr cex_cdf_delta_le)⟩

/-- C2: for every input with a rank-3 `y_hat` whose last axis is divisible
by 3 (carried by the type `Fin B → Fin T → Fin (3*K) → ℝ`, with at least
one mixture component and a non-degenerate `num_classes`), every partial
numeric operation of the pipeline stays inside its domain, so both the
reduced and the unreduced outputs are defined real numbers (no `NaN`/`Inf`
is introduced by a `log`, a division, or an empty reduction). -/
theorem C2_output_finite {B T K : ℕ} (num_classes : ℤ) (log_scale_min : ℝ)
    (y_hat : Fin B → Fin T → Fin (3 * K) → ℝ) (y : Fin B → Fin T → ℝ)
    (hK : 0 < K) (hnc : num_classes ≠ 1) (hB : 0 < B) (hT : 0 < T) :
    lossReducedChecked num_classes log_scale_min y_hat y =
      some (lossReduced num_classes log_scale_min y_hat y) ∧
    lossUnreducedChecked num_classes log_scale_min y_hat y =
      some (lossUnreduced num_classes log_scale_min y_hat y) := by
  have hwd := wellDefined_holds num_classes log_scale_min y_hat y hK hnc
  have hBT : (0 : ℝ) < (B : ℝ) * (T : ℝ) :=
    mul_pos (Nat.cast_pos.mpr hB) (Nat.cast_pos.mpr hT)
  exact ⟨by rw [lossReducedChecked, if_pos ⟨hwd, hBT⟩],
    by rw [lossUnreducedChecked, if_pos hwd]⟩

/-- Witness for C2 at a concrete all-zero input. -/
theorem C2_output_finite_witness :
    lossReducedChecked 65536 min_value zeroYhat cexY =
      some (lossReduced 65536 min_value zeroYhat cexY) ∧
    lossUnreducedChecked 65536 min_value zeroYhat cexY =
      some (lossUnreduced 65536 min_value zeroYhat cexY) :=
  C2_output_finite 65536 min_value zeroYhat cexY Nat.one_pos (by decide)
    Nat.one_pos Nat.one_pos

/-- C3: the stable `log_sum_exp` (subtract the per-row maximum, add it back
after the log of the sum) computes the same function as the naive
`log(Σ exp(x_i))` on every row of a non-empty last axis. -/
theorem C3_log_sum_exp_matches_naive {K : ℕ} (hK : 0 < K) (x : Fin K → ℝ) :
    log_sum_exp x = log_sum_exp_naive x :=
  log_sum_exp_eq_naive hK x

/-- Witness for C3 at a concrete one-element row. -/
theorem C3_log_sum_exp_matches_naive_witness :
    log_sum_exp (fun _ : Fin 1 => (0 : ℝ)) =
      log_sum_exp_naive (fun _ : Fin 1 => (0 : ℝ)) :=
  C3_log_sum_exp_matches_naive Nat.one_pos (fun _ => 0)

/-- C4: for every valid input, the `reduce=True` output is exactly the
mean over all `(batch, time)` elements of the `reduce=False` output after
squeezing the trailing singleton axis. -/
theorem C4_reduce_consistency {B T K : ℕ} (num_classes : ℤ) (log_scale_min : ℝ)
    (y_hat : Fin B → Fin T → Fin (3 * K) → ℝ) (y : Fin B → Fin T → ℝ)
    (hB : 0 < B) (hT : 0 < T) :
    lossReduced num_classes log_scale_min y_hat y =
      mean2 (fun b t =>
        lossUnreduced num_classes log_scale_min y_hat y b t ⟨0, Nat.one_pos⟩) := by
  simp [lossReduced, lossUnreduced, mean2, neg_div]

/-- Witness for C4 at a concrete one-element input. -/
theorem C4_reduce_consistency_witness :
    lossReduced 65536 min_value zeroYhat cexY =
      mean2 (fun b t => lossUnreduced 65536 min_value zeroYhat cexY b t ⟨0, Nat.one_pos⟩) :=
  C4_reduce_consistency 65536 min_value zeroYhat cexY Nat.one_pos Nat.one_pos

/-- C5: adding the same constant `c` to all `K` entries of the
`logit_probs` slice at every `(batch, time)` position leaves both outputs
of `LossFn_Mol` unchanged (log-softmax invariance to constant logit
shifts). -/
theorem C5_logit_shift_invariance {B T K : ℕ} (num_classes : ℤ) (log_scale_min : ℝ)
    (y_hat : Fin B → Fin T → Fin (3 * K) → ℝ) (y : Fin B → Fin T → ℝ) (c : ℝ) :
    lossReduced num_classes log_scale_min (shiftLogits c y_hat) y =
      lossReduced num_classes log_scale_min y_hat y ∧
    ∀ b t j, lossUnreduced num_classes log_scale_min (shiftLogits c y_hat) y b t j =
      lossUnreduced num_classes log_scale_min y_hat y b t j := by
  have hrow : ∀ b t, log_probs num_classes log_scale_min (shiftLogits c y_hat) y b t =
      log_probs num_classes log_scale_min y_hat y b t := by
    intro b t
    funext i
    have hK : 0 < K := i.pos
    have hnm : ¬ (K + i.val < K) := by omega
    have hns : ¬ (2 * K + i.val < K) := by omega
    have hm : means (shiftLogits c y_hat) b t i = means y_hat b t i := by
      simp [means, shiftLogits, idx1, hnm]
    have hs : log_scales log_scale_min (shiftLogits c y_hat) b t i =
        log_scales log_scale_min y_hat b t i := by
      simp [log_scales, shiftLogits, idx2, hns]
    have hl : logit_probs (shiftLogits c y_hat) b t =
        fun j => logit_probs y_hat b t j + c := by
      funext j
      simp [logit_probs, shiftLogits, idx0, j.isLt]
    rw [log_probs, log_probs,
      log_probs_pre_congr num_classes log_scale_min (shiftLogits c y_hat) y_hat y b t i hm hs,
      hl, log_softmax_shift hK]
  have hsum : ∀ b t,
      log_sum_exp (log_probs num_classes log_scale_min (shiftLogits c y_hat) y b t) =
        log_sum_exp (log_probs num_classes log_scale_min y_hat y b t) :=
    fun b t => by rw [hrow]
  constructor
  · rw [lossReduced, lossReduced]
    simp only [hsum]
  · intro b t j
    simp only [lossUnreduced]
    rw [hrow]

/-- C6: when the target at a position is exactly `1.0`, the pre-mixture
per-element log-probability equals `log_one_minus_cdf_min` exactly; when
it is exactly `-1.0`, it equals `log_cdf_plus` exactly, with no
contribution from the interior-bin branch. -/
theorem C6_boundary_targets {B T K : ℕ} (num_classes : ℤ) (log_scale_min : ℝ)
    (y_hat : Fin B → Fin T → Fin (3 * K) → ℝ) (y : Fin B → Fin T → ℝ)
    (b : Fin B) (t : Fin T) :
    (y b t = 1 → ∀ i, log_probs_pre num_classes log_scale_min y_hat y b t i =
      log_one_minus_cdf_min num_classes log_scale_min y_hat y b t i) ∧
    (y b t = -1 → ∀ i, log_probs_pre num_classes log_scale_min y_hat y b t i =
      log_cdf_plus num_classes log_scale_min y_hat y b t i) := by
  constructor
  · intro h i
    exact log_probs_pre_high num_classes log_scale_min y_hat y b t i
      (by rw [h]; norm_num) (by rw [h]; norm_num)
  · intro h i
    exact log_probs_pre_low num_classes log_scale_min y_hat y b t i
      (by rw [h]; norm_num)

/-- Witness for C6 at concrete saturated targets. -/
theorem C6_boundary_targets_witness :
    log_probs_pre 65536 min_value zeroYhat (fun _ _ => 1) 0 0 0 =
      log_one_minus_cdf_min 65536 min_value zeroYhat (fun _ _ => 1) 0 0 0 ∧
    log_probs_pre 65536 min_value zeroYhat (fun _ _ => -1) 0 0 0 =
      log_cdf_plus 65536 min_value zeroYhat (fun _ _ => -1) 0 0 0 :=
  ⟨(C6_boundary_targets 65536 min_value zeroYhat (fun _ _ => 1) 0 0).1 rfl 0,
   (C6_boundary_targets 65536 min_value zeroYhat (fun _ _ => -1) 0 0).2 rfl 0⟩

/-- C7: `LossFn_Mol` succeeds exactly on inputs whose `y_hat` is rank 3
with last axis divisible by 3; otherwise it fails with a precondition
(assert) violation before computing any loss. -/
theorem C7_shape_validation (y_hat : NDTensor) (y : ℕ → ℕ → ℝ) (num_classes : ℤ)
    (log_scale_min : Option ℝ) (reduce : Bool) :
    (∃ out, LossFn_Mol y_hat y num_classes log_scale_min reduce = .ok out) ↔
      ∃ nB nT nC, y_hat.shape = [nB, nT, nC] ∧ nC % 3 = 0 := by
  rcases hsh : y_hat.shape with _ | ⟨a, _ | ⟨b, _ | ⟨c, _ | ⟨d, rest⟩⟩⟩⟩
  · simp [LossFn_Mol, hsh]
  · simp [LossFn_Mol, hsh]
  · simp [LossFn_Mol, hsh]
  · by_cases h3 : c % 3 = 0
    · cases reduce <;>
        · simp [LossFn_Mol, hsh, h3]
          exact ⟨a, b, c, ⟨rfl, rfl, rfl⟩, h3⟩
    · simp [LossFn_Mol, hsh, h3]
  · simp [LossFn_Mol, hsh]

/-- C8: on a valid `[B, T, 3K]` input, `reduce=False` returns a tensor of
shape `[B, T, 1]` and `reduce=True` returns a single scalar. -/
theorem C8_output_shapes {nB nT nK : ℕ} (y_hat : NDTensor) (y : ℕ → ℕ → ℝ)
    (num_classes : ℤ) (log_scale_min : Option ℝ)
    (h : y_hat.shape = [nB, nT, 3 * nK]) :
    (∃ v, LossFn_Mol y_hat y num_classes log_scale_min true = .ok (.scalar v)) ∧
    (∃ t', LossFn_Mol y_hat y num_classes log_scale_min false = .ok (.tensor t') ∧
      t'.shape = [nB, nT, 1]) := by
  have h3 : (3 * nK) % 3 = 0 := Nat.mul_mod_right 3 nK
  constructor
  · refine ⟨lossReduced num_classes (log_scale_min.getD min_value)
      (fun (b : Fin nB) (t : Fin nT) (i : Fin (3 * (3 * nK / 3))) =>
        y_hat.entry [b.val, t.val, i.val])
      (fun (b : Fin nB) (t : Fin nT) => y b.val t.val), ?_⟩
    simp [LossFn_Mol, h, h3]
  · refine ⟨unreducedNDT num_classes (log_scale_min.getD min_value)
      (fun (b : Fin nB) (t : Fin nT) (i : Fin (3 * (3 * nK / 3))) =>
        y_hat.entry [b.val, t.val, i.val])
      (fun (b : Fin nB) (t : Fin nT) => y b.val t.val), ?_, rfl⟩
    simp [LossFn_Mol, h, h3]

/-- Witness for C8 at a concrete `[1, 1, 3]` tensor. -/
theorem C8_output_shapes_witness :
    (∃ v, LossFn_Mol ⟨[1, 1, 3], fun _ => 0⟩ (fun _ _ => 0) 65536 none true =
      .ok (.scalar v)) ∧
    (∃ t', LossFn_Mol ⟨[1, 1, 3], fun _ => 0⟩ (fun _ _ => 0) 65536 none false =
      .ok (.tensor t') ∧ t'.shape = [1, 1, 1]) :=
  @C8_output_shapes 1 1 1 ⟨[1, 1, 3], fun _ => 0⟩ (fun _ _ => 0) 65536 none rfl

/-- C9: in both the training and the evaluation loop, processing a batch
raises `ValueError('This input mode is not valid.')` exactly for mode tags
outside `{"RAW", "MOL"}`; recognized modes proceed without such an error. -/
theorem C9_mode_dispatch (mode : String) (y_hat y : NDTensor) :
    ((∃ e, train_mode_step mode y_hat y = .error e) ↔
      ¬ (mode = "RAW" ∨ mode = "MOL")) ∧
    ((∃ e, evaluate_mode_step mode y_hat y = .error e) ↔
      ¬ (mode = "RAW" ∨ mode = "MOL")) := by
  by_cases h1 : mode = "RAW" <;> by_cases h2 : mode = "MOL" <;>
    simp [train_mode_step, evaluate_mode_step, h1, h2]

/-- C10: with a single mixture component (`K = 1`) the output of
`LossFn_Mol` does not depend on the `logit_probs` slice: two inputs that
agree outside the first third of the last axis produce equal outputs,
because the log-softmax of a single logit is identically zero. -/
theorem C10_single_component_logit_independence {B T : ℕ} (num_classes : ℤ)
    (log_scale_min : ℝ) (y_hat1 y_hat2 : Fin B → Fin T → Fin (3 * 1) → ℝ)
    (y : Fin B → Fin T → ℝ)
    (h : ∀ b t (i : Fin (3 * 1)), 1 ≤ i.val → y_hat1 b t i = y_hat2 b t i) :
    lossReduced num_classes log_scale_min y_hat1 y =
      lossReduced num_classes log_scale_min y_hat2 y ∧
    ∀ b t j, lossUnreduced num_classes log_scale_min y_hat1 y b t j =
      lossUnreduced num_classes log_scale_min y_hat2 y b t j := by
  have hrow : ∀ b t, log_probs num_classes log_scale_min y_hat1 y b t =
      log_probs num_classes log_scale_min y_hat2 y b t := by
    intro b t
    funext i
    have hm : means y_hat1 b t i = means y_hat2 b t i := by
      rw [means, means]
      exact h b t (idx1 i) (Nat.le_add_right 1 i.val)
    have hs : log_scales log_scale_min y_hat1 b t i =
        log_scales log_scale_min y_hat2 b t i := by
      rw [log_scales, log_scales, h b t (idx2 i) (by show 1 ≤ 2 * 1 + i.val; omega)]
    rw [log_probs, log_probs,
      log_probs_pre_congr num_classes log_scale_min y_hat1 y_hat2 y b t i hm hs,
      log_softmax_single, log_softmax_single]
  have hsum : ∀ b t,
      log_sum_exp (log_probs num_classes log_scale_min y_hat1 y b t) =
        log_sum_exp (log_probs num_classes log_scale_min y_hat2 y b t) :=
    fun b t => by rw [hrow]
  constructor
  · rw [lossReduced, lossReduced]
    simp only [hsum]
  · intro b t j
    simp only [lossUnreduced]
    rw [hrow]

/-- Witness for C10 at two concrete inputs differing only in the logit. -/
theorem C10_single_component_logit_independence_witness :
    lossReduced 65536 min_value wYhatA cexY = lossReduced 65536 min_value wYhatB cexY ∧
    ∀ b t j, lossUnreduced 65536 min_value wYhatA cexY b t j =
      lossUnreduced 65536 min_value wYhatB cexY b t j :=
  C10_single_component_logit_independence 65536 min_value wYhatA wYhatB cexY
    (by
      intro b t i hi
      have hne : i.val ≠ 0 := by omega
      simp [wYhatA, wYhatB, hne])

end MolLoss
